import Mathlib

/-!
Verification of the session engine of a small terminal AI assistant.

The embedding models the JavaScript implementation shallowly:
- JS strings are handled through their character lists (`String.data`);
  `toLowerCase`, `startsWith`, `includes`, `slice`, `trim` and
  `path.basename` are reimplemented on lists of characters for the ASCII
  fragment the program manipulates.
- The filesystem is a finite association list from paths to entries; an
  entry is either readable content or an unreadable entry whose read
  throws (this models `fs.existsSync` returning true while
  `fs.readFileSync` throws, e.g. for a directory or a permission error).
- External collaborators (path resolution, markdown rendering, the remote
  inference client, the operator's confirmation answers, write success)
  are bundled in an `Ext` record of oracles.
- A handler that lets a JavaScript exception escape is modelled as a
  computation in `Except String`; a caught-and-rendered failure returns
  `.ok` with the diagnostic in the output list.
- Console messages are carried without terminal styling; the quote marks
  around command names inside a few messages are dropped.
-/

namespace SmallCliAi

/-! ## JS string primitives on character lists -/

/-- Character-list view of `s.toLowerCase()` (ASCII fragment). -/
def lowerData (s : String) : List Char := s.data.map Char.toLower

/-- `startsWithL l pre` models `l.startsWith(pre)` on character lists. -/
def startsWithL : List Char → List Char → Bool
  | _, [] => true
  | [], _ :: _ => false
  | c :: cs, p :: ps => c == p && startsWithL cs ps

/-- `containsL hay needle` models `hay.includes(needle)` (substring test). -/
def containsL : List Char → List Char → Bool
  | [], needle => needle.isEmpty
  | h :: t, needle => startsWithL (h :: t) needle || containsL t needle

/-- Models `String.prototype.trim` (the ASCII whitespace the program meets). -/
def trimL (l : List Char) : List Char :=
  ((l.dropWhile Char.isWhitespace).reverse.dropWhile Char.isWhitespace).reverse

/-- `s.trim()` as a `String`. -/
def jsTrim (s : String) : String := ⟨trimL s.data⟩

/-- `s.slice(n)` (character counting; the program only slices ASCII). -/
def jsSlice (s : String) (n : Nat) : String := ⟨s.data.drop n⟩

/-- Models `path.basename` for POSIX paths: drop trailing separators, then
keep the segment after the last separator. -/
def jsBasename (p : String) : String :=
  let noTrail := (p.data.reverse.dropWhile (· == '/')).reverse
  ⟨(noTrail.reverse.takeWhile (fun c => !(c == '/'))).reverse⟩

/-! ## Command dispatcher (`chatMode` in `src/bin/index.js`)

The loop body checks, in order: `question.toLowerCase() === "exit"`,
`=== "overwrite"`, `.startsWith("checkfile ")`, `.startsWith("file ")`,
and otherwise forwards the line as a question.  The path argument is
`question.slice(keyword.length).trim()` on the original-case line.
The `Debug` variant exists in the data model (a `debug <path>` CLI
argument routes to the debug workflow) but the in-session dispatcher
never produces it. -/

inductive Command
  | exit
  | overwrite
  | checkFile (path : String)
  | debug (path : String)
  | addFileContext (path : String)
  | ask (text : String)
deriving DecidableEq

def classify (question : String) : Command :=
  let lower := lowerData question
  if lower = "exit".data then Command.exit
  else if lower = "overwrite".data then Command.overwrite
  else if startsWithL lower "checkfile ".data then
    Command.checkFile (jsTrim (jsSlice question 10))
  else if startsWithL lower "file ".data then
    Command.addFileContext (jsTrim (jsSlice question 5))
  else Command.ask question

/-- CLI argument dispatch (`main` in `src/bin/index.js`): `checkfile <p>` and
`debug <p>` with a truthy second argument run that action; any other
non-empty argument list is joined into one question; no arguments enters
chat mode directly. -/
inductive MainAction
  | checkFileCLI (path : String)
  | debugCLI (path : String)
  | askCLI (question : String)
  | chatCLI
deriving DecidableEq

def mainCommand : List String → MainAction
  | [] => MainAction.chatCLI
  | "checkfile" :: p :: rest =>
      if p = "" then MainAction.askCLI (String.intercalate " " ("checkfile" :: p :: rest))
      else MainAction.checkFileCLI p
  | "debug" :: p :: rest =>
      if p = "" then MainAction.askCLI (String.intercalate " " ("debug" :: p :: rest))
      else MainAction.debugCLI p
  | args => MainAction.askCLI (String.intercalate " " args)

/-! ## Code extraction (`extractCodeFromResponse` in `src/bin/index.js`)

The source matches the reply against the regular expression
(three backticks)(optional language tag)(optional newline)(lazy body)(optional newline)(three backticks)
with language alternatives javascript|js|node|jsx?|typescript|ts|python|py,
returns the first captured body trimmed, and otherwise the trimmed reply.
Because the lazy body absorbs arbitrary characters, a candidate match at a
given start succeeds exactly when a closing backtick fence occurs later,
so the engine never backtracks into the tag or newline choices; and the
alternative jsx? is tried only after js has already failed, hence can
never match.  The effective tag list below reflects that. -/

def codeTagList : List String :=
  ["javascript", "js", "node", "typescript", "ts", "python", "py"]

/-- Length of the language tag consumed right after the opening fence. -/
def tagLen (l : List Char) : Nat :=
  match codeTagList.find? (fun tag => startsWithL l tag.data) with
  | some tag => tag.length
  | none => 0

/-- Index of the first occurrence of a closing three-backtick fence. -/
def findClose : List Char → Option Nat
  | [] => none
  | h :: t =>
      if startsWithL (h :: t) "```".data then some 0
      else (findClose t).map (· + 1)

/-- The regex engine's trailing optional newline: the lazy body stops one
character earlier when the character before the closing fence is a
newline. -/
def stripTrailNl (l : List Char) : List Char :=
  if l.getLast? = some '\n' then l.dropLast else l

/-- Leftmost-first scan for a fenced block; returns the captured, trimmed
body of the first fence that also has a closing fence. -/
def extractScan : List Char → Option (List Char)
  | [] => none
  | h :: t =>
      if startsWithL (h :: t) "```".data then
        let rest0 := (h :: t).drop 3
        let rest1 := rest0.drop (tagLen rest0)
        let rest2 := match rest1 with
          | '\n' :: r => r
          | r => r
        match findClose rest2 with
        | some m => some (trimL (stripTrailNl (rest2.take m)))
        | none => extractScan t
      else extractScan t

def extractCodeFromResponse (text : String) : String :=
  match extractScan text.data with
  | some body => ⟨body⟩
  | none => jsTrim text

/-! ## Filesystem model

`fs.existsSync` is a key lookup; `fs.readFileSync` throws on a missing
path and on an existing unreadable entry (directory, permission error);
`fs.writeFileSync` succeeds or throws according to the `writeOk` oracle
and, at this granularity, a failed write leaves the store unchanged. -/

inductive FileEntry
  | readable (content : String)
  | unreadable (err : String)
deriving DecidableEq

abbrev FS := List (String × FileEntry)

def jsExistsSync (fs : FS) (p : String) : Bool :=
  (fs.find? (fun e => e.1 == p)).isSome

def jsReadFileSync (fs : FS) (p : String) : Except String String :=
  match fs.find? (fun e => e.1 == p) with
  | some (_, FileEntry.readable c) => Except.ok c
  | some (_, FileEntry.unreadable e) => Except.error e
  | none => Except.error ("ENOENT: no such file or directory " ++ p)

def jsWriteFileSync (writeOk : String → Bool) (fs : FS) (p c : String) :
    Except String FS :=
  if writeOk p then
    Except.ok ((p, FileEntry.readable c) :: fs.filter (fun e => !(e.1 == p)))
  else Except.error ("EACCES: permission denied " ++ p)

/-! ## Session state and external collaborators -/

/-- Session state: the filesystem and the module-level `lastAnalyzedFile`. -/
structure St where
  fs : FS
  lastAnalyzedFile : Option String
deriving DecidableEq

/-- External collaborators: `resolve` is `path.resolve(process.cwd(), ·)`,
`render` is the markdown-to-terminal formatter (blackboxed per the spec),
`remote` is `chat.sendMessage`, `writeOk` decides whether a
`fs.writeFileSync` call succeeds, `shouldSave` and `shouldOverwrite` are
the operator's answers to the two confirmation prompts. -/
structure Ext where
  resolve : String → String
  render : String → String
  remote : String → Except String String
  writeOk : String → Bool
  shouldSave : Bool
  shouldOverwrite : Bool

/-- Result of a handler that returned normally: new state, console output
in order, and the list of prompts sent to the remote client. -/
structure Res where
  st : St
  out : List String
  sent : List String
deriving DecidableEq

/-! ## Prompts (verbatim from `src/bin/index.js`) -/

def analyzePrompt (filePath content : String) : String :=
  "Analyze this file and provide comprehensive feedback in a detailed paragraph format. Cover code quality, potential improvements, best practices, and optimization suggestions:\n\nFile: "
    ++ filePath ++ "\n\nContent:\n" ++ content

def debugPrompt (filePath content : String) : String :=
  "Debug this file and provide a comprehensive paragraph explaining what issues, bugs, inefficiencies, or improvements you found. Be specific about problems and suggest concrete solutions:\n\nFile: "
    ++ filePath ++ "\n\nContent:\n" ++ content

def rewritePrompt (fileName content : String) : String :=
  "Rewrite this entire file with all improvements, fixes, and optimizations. Return only the complete, clean code without any comments, explanations, or markdown formatting. Make the code production-ready and maintain all original functionality while implementing the improvements we discussed:\n\nFile: "
    ++ fileName ++ "\n\nCurrent Content:\n" ++ content

def contextPrompt (filePath content : String) : String :=
  "Here is a code file for context (" ++ filePath ++ "):\n" ++ content

/-! ## Handlers (`src/bin/index.js`)

Each handler mirrors its source function.  `fs.readFileSync` sits outside
the try/catch in every handler, so a read failure is an uncaught
exception (`Except.error`); failures of the remote call and of the write
calls happen inside the try and are rendered (`Except.ok` with a
diagnostic). -/

/-- `askQuestion` (lines 103-111): a remote failure is caught and
rendered; no state changes. -/
def askQuestion (ext : Ext) (st : St) (question : String) : Res :=
  match ext.remote question with
  | Except.ok reply => ⟨st, ["Gemini: " ++ ext.render reply], [question]⟩
  | Except.error e => ⟨st, ["Error: " ++ e], [question]⟩

/-- `handleOverwrite` (lines 196-254). -/
def handleOverwrite (ext : Ext) (st : St) : Except String Res :=
  match st.lastAnalyzedFile with
  | none =>
      Except.ok ⟨st,
        ["No file has been analyzed yet. Use checkfile or debug first."], []⟩
  | some f =>
      if jsExistsSync st.fs f = false then
        Except.ok ⟨st, ["Previously analyzed file not found: " ++ f], []⟩
      else
        match jsReadFileSync st.fs f with
        | Except.error e => Except.error e
        | Except.ok content =>
            let fileName := jsBasename f
            let p := rewritePrompt fileName content
            match ext.remote p with
            | Except.error e =>
                Except.ok ⟨st,
                  ["Generating improved code for: " ++ fileName,
                   "Error generating improved code: " ++ e], [p]⟩
            | Except.ok replyText =>
                let rewrittenCode := extractCodeFromResponse replyText
                let outPrev :=
                  ["Generating improved code for: " ++ fileName,
                   "Improved Code Preview:", rewrittenCode]
                if ext.shouldSave then
                  let backupPath := f ++ ".backup"
                  match jsWriteFileSync ext.writeOk st.fs backupPath content with
                  | Except.error e =>
                      Except.ok ⟨st,
                        outPrev ++ ["Error generating improved code: " ++ e], [p]⟩
                  | Except.ok fs1 =>
                      match jsWriteFileSync ext.writeOk fs1 f rewrittenCode with
                      | Except.error e =>
                          Except.ok ⟨⟨fs1, st.lastAnalyzedFile⟩,
                            outPrev ++ ["Backup created: " ++ backupPath,
                              "Error generating improved code: " ++ e], [p]⟩
                      | Except.ok fs2 =>
                          Except.ok ⟨⟨fs2, st.lastAnalyzedFile⟩,
                            outPrev ++ ["Backup created: " ++ backupPath,
                              "File successfully improved and saved: " ++ fileName],
                            [p]⟩
                else
                  Except.ok ⟨st,
                    outPrev ++ ["Changes not saved. Original file unchanged."], [p]⟩

/-- `checkFile` (lines 113-146); `continueChat` adds the trailing hint, the
nested chat loop being the session loop itself. -/
def checkFile (ext : Ext) (st : St) (filePath : String) (continueChat : Bool) :
    Except String Res :=
  let absPath := ext.resolve filePath
  if jsExistsSync st.fs absPath = false then
    Except.ok ⟨st, ["File not found: " ++ absPath], []⟩
  else
    match jsReadFileSync st.fs absPath with
    | Except.error e => Except.error e
    | Except.ok content =>
        let st1 : St := ⟨st.fs, some absPath⟩
        let p := analyzePrompt filePath content
        match ext.remote p with
        | Except.error e =>
            Except.ok ⟨st1,
              ["Analyzing file: " ++ absPath, "Error analyzing file: " ++ e], [p]⟩
        | Except.ok reply =>
            let base := ["Analyzing file: " ++ absPath,
              "File Analysis:\n" ++ ext.render reply]
            Except.ok ⟨st1,
              base ++ (if continueChat then
                ["File context loaded. Continue asking questions or use overwrite to improve this file."]
              else []), [p]⟩

/-- The trailing `continueChat` hint of `debugFile` (the nested chat loop
is the session loop itself). -/
def withCC (cc : Bool) (r : Res) : Res :=
  if cc then
    ⟨r.st,
      r.out ++ ["File context loaded. Continue asking questions or use overwrite anytime."],
      r.sent⟩
  else r

/-- `debugFile` (lines 148-194): after rendering the analysis the operator
is asked to confirm an overwrite; an exception thrown inside
`handleOverwrite` before its own try (its read) is caught by the catch of
`debugFile` and rendered there. -/
def debugFile (ext : Ext) (st : St) (filePath : String) (continueChat : Bool) :
    Except String Res :=
  let absPath := ext.resolve filePath
  if jsExistsSync st.fs absPath = false then
    Except.ok ⟨st, ["File not found: " ++ absPath], []⟩
  else
    match jsReadFileSync st.fs absPath with
    | Except.error e => Except.error e
    | Except.ok content =>
        let st1 : St := ⟨st.fs, some absPath⟩
        let p := debugPrompt filePath content
        let out0 := ["Debugging file: " ++ absPath]
        match ext.remote p with
        | Except.error e =>
            Except.ok ⟨st1, out0 ++ ["Error debugging file: " ++ e], [p]⟩
        | Except.ok reply =>
            let out1 := out0 ++ ["Debug Analysis:\n" ++ ext.render reply]
            let afterOv : Res :=
              if ext.shouldOverwrite then
                match handleOverwrite ext st1 with
                | Except.error e =>
                    ⟨st1, out1 ++ ["Error debugging file: " ++ e], [p]⟩
                | Except.ok r2 => ⟨r2.st, out1 ++ r2.out, p :: r2.sent⟩
              else ⟨st1, out1, [p]⟩
            Except.ok (withCC continueChat afterOv)

/-- The `file <path>` branch of `chatMode` (lines 292-313): read-only
context injection; records the file as analyzed before the remote call. -/
def addFileContext (ext : Ext) (st : St) (filePath : String) :
    Except String Res :=
  let absPath := ext.resolve filePath
  if jsExistsSync st.fs absPath = false then
    Except.ok ⟨st, ["File not found: " ++ absPath], []⟩
  else
    match jsReadFileSync st.fs absPath with
    | Except.error e => Except.error e
    | Except.ok content =>
        let st1 : St := ⟨st.fs, some absPath⟩
        let p := contextPrompt filePath content
        match ext.remote p with
        | Except.error e =>
            Except.ok ⟨st1,
              ["Adding file context: " ++ absPath,
               "Error adding file context: " ++ e], [p]⟩
        | Except.ok _ =>
            Except.ok ⟨st1,
              ["Adding file context: " ++ absPath,
               "File context added to conversation."], [p]⟩

/-- One iteration of the `chatMode` loop: classify, dispatch, and report
whether the loop continues (`false` exactly on `exit`).  The `Command.debug`
branch is never produced by `classify`; it mirrors the CLI route. -/
def stepSession (ext : Ext) (st : St) (question : String) :
    Except String (Res × Bool) :=
  match classify question with
  | Command.exit => Except.ok (⟨st, ["Session ended. Goodbye!"], []⟩, false)
  | Command.overwrite => (handleOverwrite ext st).map (fun r => (r, true))
  | Command.checkFile p => (checkFile ext st p false).map (fun r => (r, true))
  | Command.debug p => (debugFile ext st p false).map (fun r => (r, true))
  | Command.addFileContext p => (addFileContext ext st p).map (fun r => (r, true))
  | Command.ask t => Except.ok (askQuestion ext st t, true)

/-! ## Suggestion engine (`chatMode` autocomplete source in
`src/unnamed/part_001`, lines 168-210)

History candidates are the history entries whose lowercased text includes
the lowercased input, in `chatHistory` order, then reversed; since
`askQuestion` there pushes each question with `unshift` (newest first),
the displayed history group ends up oldest-first.  Filesystem candidates
are attempted only when the input contains a path separator: the resolved
directory is listed (`listing`, `none` for an enumeration failure, which
is swallowed), names are kept when they include the lowercased basename
fragment, and mapped back to working-directory-relative paths (`toRel`
stands for `path.relative(cwd, path.join(absDir, ·))`).  The deduplicated
union (insertion-ordered, as a JS `Set`) is returned only when at most one
group is non-empty; when both are non-empty the two groups are
concatenated around a separator without deduplication. -/

inductive Sugg
  | item (s : String)
  | separator
deriving DecidableEq

def historyMatches (chatHistory : List String) (input : String) : List String :=
  (chatHistory.filter (fun it => containsL (lowerData it) (lowerData input))).reverse

def fileMatches (input : String) (listing : Option (List String))
    (toRel : String → String) : List String :=
  if input.data.contains '/' || input.data.contains '\\' then
    match listing with
    | none => []
    | some files =>
        (files.filter (fun f =>
          containsL (lowerData f) (lowerData (jsBasename input)))).map toRel
  else []

/-- First-seen-order deduplication, as iterating a JS `Set`. -/
def dedupAux (seen : List String) : List String → List String
  | [] => []
  | x :: xs => if x ∈ seen then dedupAux seen xs else x :: dedupAux (x :: seen) xs

def jsSetDedup (l : List String) : List String := dedupAux [] l

def suggest (chatHistory : List String) (input : String)
    (listing : Option (List String)) (toRel : String → String) : List Sugg :=
  let historySuggestions := historyMatches chatHistory input
  let fileSuggestions := fileMatches input listing toRel
  let allSuggestions := jsSetDedup (fileSuggestions ++ historySuggestions)
  if fileSuggestions.length > 0 && historySuggestions.length > 0 then
    fileSuggestions.map Sugg.item ++ [Sugg.separator] ++
      historySuggestions.map Sugg.item
  else
    allSuggestions.map Sugg.item

/-- `chatHistory.unshift(question)` on each successful ask: the history
list after asking `qs` in order, newest first. -/
def unshiftAll (qs : List String) : List String :=
  qs.foldl (fun h q => q :: h) []

/-! ## Helper lemmas -/

theorem startsWithL_iff (pre l : List Char) :
    startsWithL l pre = true ↔ ∃ t, l = pre ++ t := by
  induction pre generalizing l with
  | nil => simp [startsWithL]
  | cons p ps ih =>
      cases l with
      | nil => simp [startsWithL]
      | cons c cs =>
          simp only [startsWithL, Bool.and_eq_true, beq_iff_eq, ih,
            List.cons_append, List.cons.injEq]
          constructor
          · rintro ⟨rfl, t, rfl⟩; exact ⟨t, rfl, rfl⟩
          · rintro ⟨t, rfl, rfl⟩; exact ⟨rfl, t, rfl⟩

theorem startsWithL_refl (l : List Char) : startsWithL l l = true :=
  (startsWithL_iff l l).mpr ⟨[], by simp⟩

theorem containsL_suffix (x y : List Char) : containsL (x ++ y) y = true := by
  induction x with
  | nil =>
      cases y with
      | nil => rfl
      | cons h t => simp [containsL, startsWithL_refl]
  | cons a x ih => simp [containsL, ih]

theorem dq_exit : ("exit".data : List Char) = ['e', 'x', 'i', 't'] := rfl

theorem dq_overwrite :
    ("overwrite".data : List Char) = ['o', 'v', 'e', 'r', 'w', 'r', 'i', 't', 'e'] := rfl

theorem dq_checkfile :
    ("checkfile ".data : List Char) = ['c', 'h', 'e', 'c', 'k', 'f', 'i', 'l', 'e', ' '] := rfl

theorem dq_file : ("file ".data : List Char) = ['f', 'i', 'l', 'e', ' '] := rfl

theorem dq_debug : ("debug ".data : List Char) = ['d', 'e', 'b', 'u', 'g', ' '] := rfl

theorem classify_ne_debug (s p : String) : classify s ≠ Command.debug p := by
  intro h
  simp only [classify] at h
  split at h <;> try exact Command.noConfusion h
  split at h <;> try exact Command.noConfusion h
  split at h <;> try exact Command.noConfusion h
  split at h <;> exact Command.noConfusion h

theorem classify_exit_iff (s : String) :
    classify s = Command.exit ↔ lowerData s = "exit".data := by
  constructor
  · intro h
    simp only [classify] at h
    split at h
    · assumption
    · split at h
      · exact Command.noConfusion h
      · split at h
        · exact Command.noConfusion h
        · split at h
          · exact Command.noConfusion h
          · exact Command.noConfusion h
  · intro h
    simp [classify, h]

theorem classify_overwrite_iff (s : String) :
    classify s = Command.overwrite ↔ lowerData s = "overwrite".data := by
  constructor
  · intro h
    simp only [classify] at h
    split at h
    · exact Command.noConfusion h
    · split at h
      · assumption
      · split at h
        · exact Command.noConfusion h
        · split at h
          · exact Command.noConfusion h
          · exact Command.noConfusion h
  · intro h
    have hne : lowerData s ≠ "exit".data := by
      rw [h]; decide
    simp [classify, h, hne]

theorem classify_ask_of (s : String)
    (h1 : lowerData s ≠ "exit".data) (h2 : lowerData s ≠ "overwrite".data)
    (h3 : startsWithL (lowerData s) "checkfile ".data = false)
    (h4 : startsWithL (lowerData s) "file ".data = false) :
    classify s = Command.ask s := by
  simp [classify, h1, h2, h3, h4]

/-- C4: for every input line, classification yields exactly one `Command`
variant and never an error (it is the total function `classify`); exact
keyword matching is on the lowercased line, so it is case-insensitive and
the exact keywords `exit` and `overwrite` fire exactly on lines whose
lowercasing is that keyword — in particular `"exiting"` is an Ask, not
Exit, while `"EXIT"` and `"Overwrite"` match. -/
theorem classify_total_and_exact (s : String) :
    (classify s = Command.exit ↔ lowerData s = "exit".data) ∧
    (classify s = Command.overwrite ↔ lowerData s = "overwrite".data) ∧
    (lowerData s ≠ "exit".data → lowerData s ≠ "overwrite".data →
      startsWithL (lowerData s) "checkfile ".data = false →
      startsWithL (lowerData s) "file ".data = false →
      classify s = Command.ask s) ∧
    classify "exiting" = Command.ask "exiting" ∧
    classify "EXIT" = Command.exit ∧
    classify "Overwrite" = Command.overwrite :=
  ⟨classify_exit_iff s, classify_overwrite_iff s, classify_ask_of s,
    by decide, by decide, by decide⟩

/-- C4 witness: the characterization evaluated at a concrete line. -/
theorem classify_total_and_exact_witness :
    classify "hello" = Command.ask "hello" :=
  (classify_total_and_exact "hello").2.2.1 (by decide) (by decide)
    (by decide) (by decide)

/-- C5 counterexample: the in-session dispatcher forwards a line beginning
with `debug ` as an Ask question; it is not classified as Debug. -/
theorem classify_debug_line_cex :
    classify "debug a.js" = Command.ask "debug a.js" ∧
    Command.ask "debug a.js" ≠ Command.debug "a.js" := by
  decide

/-- C5 amended: `classify` never yields the Debug variant; every
in-session line whose lowercasing starts with `debug ` is forwarded as an
Ask; the debug workflow is reachable only through the CLI argument form
`debug <path>` with a non-empty path. -/
theorem classify_debug_amended (s p : String) (rest : List String) :
    (classify s ≠ Command.debug p) ∧
    (startsWithL (lowerData s) "debug ".data = true → classify s = Command.ask s) ∧
    (p ≠ "" → mainCommand ("debug" :: p :: rest) = MainAction.debugCLI p) := by
  refine ⟨classify_ne_debug s p, ?_, ?_⟩
  · intro hd
    obtain ⟨t, ht⟩ := (startsWithL_iff _ _).mp hd
    refine classify_ask_of s ?_ ?_ ?_ ?_ <;>
      rw [ht] <;> simp [dq_debug, dq_exit, dq_overwrite, dq_checkfile, dq_file,
        startsWithL]
  · intro hp
    simp [mainCommand, hp]

/-- C5 amended witness: evaluated at the concrete line `debug a.js` and
the concrete CLI argument list `["debug", "a.js"]`. -/
theorem classify_debug_amended_witness :
    classify "debug a.js" = Command.ask "debug a.js" ∧
    mainCommand ["debug", "a.js"] = MainAction.debugCLI "a.js" :=
  ⟨(classify_debug_amended "debug a.js" "a.js" []).2.1 (by decide),
   (classify_debug_amended "debug a.js" "a.js" []).2.2 (by decide)⟩

theorem foldl_cons_acc (qs : List String) :
    ∀ acc, qs.foldl (fun h q => q :: h) acc = qs.reverse ++ acc := by
  induction qs with
  | nil => intro acc; simp
  | cons q qs ih => intro acc; simp [List.foldl_cons, ih]

theorem unshiftAll_eq_reverse (qs : List String) : unshiftAll qs = qs.reverse := by
  unfold unshiftAll
  rw [foldl_cons_acc]
  simp

theorem historyMatches_unshiftAll (qs : List String) (input : String) :
    historyMatches (unshiftAll qs) input =
      qs.filter (fun it => containsL (lowerData it) (lowerData input)) := by
  unfold historyMatches
  rw [unshiftAll_eq_reverse, List.filter_reverse, List.reverse_reverse]

theorem dedupAux_nodup (l : List String) :
    ∀ seen, (dedupAux seen l).Nodup ∧ ∀ x ∈ dedupAux seen l, x ∉ seen := by
  induction l with
  | nil => intro seen; simp [dedupAux]
  | cons x xs ih =>
      intro seen
      by_cases hx : x ∈ seen
      · simpa [dedupAux, hx] using ih seen
      · obtain ⟨hnd, hmem⟩ := ih (x :: seen)
        refine ⟨?_, ?_⟩
        · simp only [dedupAux, if_neg hx, List.nodup_cons]
          exact ⟨fun hin => (hmem x hin) (List.mem_cons_self x seen), hnd⟩
        · intro y hy
          simp only [dedupAux, if_neg hx, List.mem_cons] at hy
          rcases hy with rfl | hy
          · exact hx
          · intro hseen
            exact (hmem y hy) (List.mem_cons_of_mem x hseen)

theorem jsSetDedup_nodup (l : List String) : (jsSetDedup l).Nodup :=
  (dedupAux_nodup l []).1

theorem sugg_item_injective : Function.Injective Sugg.item := by
  intro a b h
  injection h

/-- C6 counterexample: with history `["a/a.js"]` (the same string is also a
filesystem candidate for input `a/` with listing `["a.js"]`), the code
returns the two non-deduplicated groups around the separator, so the
suggestion list contains `a/a.js` twice. -/
theorem suggest_duplicate_cex :
    suggest ["a/a.js"] "a/" (some ["a.js"]) (fun f => "a/" ++ f) =
      [Sugg.item "a/a.js", Sugg.separator, Sugg.item "a/a.js"] ∧
    ¬ (suggest ["a/a.js"] "a/" (some ["a.js"]) (fun f => "a/" ++ f)).Nodup := by
  decide

/-- C6 amended: the deduplicated union (first-seen order, as a JS `Set`)
is returned only when at most one candidate group is non-empty, and that
returned list has no duplicates; when both groups are non-empty the groups
are concatenated around a separator without cross-group deduplication, so
a string qualifying in both sources appears once per group. -/
theorem suggest_dedup_amended (h : List String) (input : String)
    (listing : Option (List String)) (toRel : String → String)
    (hone : fileMatches input listing toRel = [] ∨ historyMatches h input = []) :
    (suggest h input listing toRel).Nodup ∧
    suggest h input listing toRel =
      (jsSetDedup (fileMatches input listing toRel ++ historyMatches h input)).map
        Sugg.item := by
  have key : suggest h input listing toRel =
      (jsSetDedup (fileMatches input listing toRel ++ historyMatches h input)).map
        Sugg.item := by
    rcases hone with h1 | h1 <;> simp [suggest, h1]
  exact ⟨key ▸ (jsSetDedup_nodup _).map sugg_item_injective, key⟩

/-- C6 amended witness: a history with a duplicated entry and no
filesystem candidates yields a deduplicated suggestion list. -/
theorem suggest_dedup_amended_witness :
    (suggest ["hello world", "hello world"] "hell" none (fun f => f)).Nodup :=
  (suggest_dedup_amended ["hello world", "hello world"] "hell" none (fun f => f)
    (Or.inl (by decide))).1

/-- C7 counterexample: after asking `a/one` then `a/two` (so `a/two` is
the most recent), the history group of the suggestion list shows `a/one`
first — chronological, not reverse-chronological, order. -/
theorem suggest_history_order_cex :
    suggest (unshiftAll ["a/one", "a/two"]) "a/" (some ["a.js"]) (fun f => "a/" ++ f) =
      [Sugg.item "a/a.js", Sugg.separator, Sugg.item "a/one", Sugg.item "a/two"] ∧
    [Sugg.item "a/a.js", Sugg.separator, Sugg.item "a/one", Sugg.item "a/two"] ≠
      [Sugg.item "a/a.js", Sugg.separator, Sugg.item "a/two", Sugg.item "a/one"] := by
  decide

/-- C7 amended: when both groups are non-empty, all filesystem candidates
precede all history candidates; within the history group the matching
entries appear in chronological order of asking (the history list is kept
newest-first by `unshift` and reversed for display). -/
theorem suggest_groups_order_amended (qs : List String) (input : String)
    (listing : Option (List String)) (toRel : String → String)
    (hf : fileMatches input listing toRel ≠ [])
    (hh : historyMatches (unshiftAll qs) input ≠ []) :
    suggest (unshiftAll qs) input listing toRel =
      (fileMatches input listing toRel).map Sugg.item ++ [Sugg.separator] ++
        (qs.filter (fun it => containsL (lowerData it) (lowerData input))).map
          Sugg.item := by
  have h0f : 0 < (fileMatches input listing toRel).length := List.length_pos.mpr hf
  have h0h : 0 < (historyMatches (unshiftAll qs) input).length := List.length_pos.mpr hh
  simp [suggest, h0f, h0h, historyMatches_unshiftAll]
  intro hall
  exfalso
  rw [historyMatches_unshiftAll] at h0h
  have hempty : List.filter (fun it => containsL (lowerData it) (lowerData input)) qs
      = [] := by
    rw [List.filter_eq_nil_iff]
    intro a ha
    simp [hall a ha]
  rw [hempty] at h0h
  simp at h0h

/-- C7 amended witness: evaluated at one ask and one matching file. -/
theorem suggest_groups_order_amended_witness :
    suggest (unshiftAll ["a/one"]) "a/" (some ["a.js"]) (fun f => "a/" ++ f) =
      (fileMatches "a/" (some ["a.js"]) (fun f => "a/" ++ f)).map Sugg.item ++
        [Sugg.separator] ++
        (["a/one"].filter (fun it => containsL (lowerData it) (lowerData "a/"))).map
          Sugg.item :=
  suggest_groups_order_amended ["a/one"] "a/" (some ["a.js"]) (fun f => "a/" ++ f)
    (by decide) (by decide)

theorem append_backup_ne (f : String) : f ++ ".backup" ≠ f := by
  intro h
  have hlen := congrArg String.length h
  rw [String.length_append] at hlen
  have h7 : (".backup" : String).length = 7 := rfl
  omega

theorem exists_of_read_ok {fs : FS} {p c : String}
    (h : jsReadFileSync fs p = Except.ok c) : jsExistsSync fs p = true := by
  unfold jsReadFileSync at h
  unfold jsExistsSync
  cases hf : fs.find? (fun e => e.1 == p) with
  | none => rw [hf] at h; exact Except.noConfusion h
  | some e => simp [hf]

/-- C1: on a confirmed overwrite of the last analyzed file `f` whose
content at call time is `content`, the workflow writes an exact copy of
`content` to `f ++ ".backup"` before writing the extracted replacement
body to `f`; and when the backup write fails, the write to `f` is never
attempted and `f` still contains `content` afterwards. -/
theorem overwrite_backup_then_write (ext : Ext) (st : St) (f content replyText : String)
    (hf : st.lastAnalyzedFile = some f)
    (hread : jsReadFileSync st.fs f = Except.ok content)
    (hremote : ext.remote (rewritePrompt (jsBasename f) content) = Except.ok replyText)
    (hsave : ext.shouldSave = true) :
    (ext.writeOk (f ++ ".backup") = true → ext.writeOk f = true →
      ∃ r, handleOverwrite ext st = Except.ok r ∧
        jsReadFileSync r.st.fs (f ++ ".backup") = Except.ok content ∧
        jsReadFileSync r.st.fs f = Except.ok (extractCodeFromResponse replyText)) ∧
    (ext.writeOk (f ++ ".backup") = false →
      ∃ r, handleOverwrite ext st = Except.ok r ∧ r.st.fs = st.fs ∧
        jsReadFileSync r.st.fs f = Except.ok content) := by
  have hex : jsExistsSync st.fs f = true := exists_of_read_ok hread
  have hne1 : ¬ (f ++ ".backup" = f) := append_backup_ne f
  have hne2 : ¬ (f = f ++ ".backup") := fun h => hne1 h.symm
  constructor
  · intro hw1 hw2
    simp only [handleOverwrite, hf, hex, hread, hremote, hsave, jsWriteFileSync,
      hw1, hw2, Bool.true_eq_false, if_false, if_true]
    refine ⟨_, rfl, ?_, ?_⟩
    · simp [jsReadFileSync, List.find?_cons, List.filter_cons, hne1, hne2]
    · simp [jsReadFileSync, List.find?_cons]
  · intro hw1
    simp only [handleOverwrite, hf, hex, hread, hremote, hsave, jsWriteFileSync,
      hw1, Bool.true_eq_false, if_false, if_true]
    exact ⟨_, rfl, rfl, hread⟩

/-- Concrete collaborators: the remote reply carries a fenced block and
every write succeeds; the operator confirms saving. -/
def extSave : Ext :=
  ⟨id, id, fun _ => Except.ok "x\n```\nnew code\n```\ny", fun _ => true, true, false⟩

def stOne : St := ⟨[("a.js", FileEntry.readable "old")], some "a.js"⟩

/-- C1 witness: the backup-then-write theorem evaluated on a one-file
filesystem. -/
theorem overwrite_backup_then_write_witness :
    ∃ r, handleOverwrite extSave stOne = Except.ok r ∧
      jsReadFileSync r.st.fs ("a.js" ++ ".backup") = Except.ok "old" ∧
      jsReadFileSync r.st.fs "a.js" =
        Except.ok (extractCodeFromResponse "x\n```\nnew code\n```\ny") :=
  (overwrite_backup_then_write extSave stOne "a.js" "old" "x\n```\nnew code\n```\ny"
    rfl rfl rfl rfl).1 rfl rfl

/-- C2: when the operator declines the save confirmation, the session
state (filesystem included) after `handleOverwrite` equals the state
before it — the target file is untouched and no backup file is created. -/
theorem overwrite_refusal (ext : Ext) (st : St) (f content replyText : String)
    (hf : st.lastAnalyzedFile = some f)
    (hread : jsReadFileSync st.fs f = Except.ok content)
    (hremote : ext.remote (rewritePrompt (jsBasename f) content) = Except.ok replyText)
    (hns : ext.shouldSave = false) :
    ∃ r, handleOverwrite ext st = Except.ok r ∧ r.st = st := by
  have hex : jsExistsSync st.fs f = true := exists_of_read_ok hread
  simp only [handleOverwrite, hf, hex, hread, hremote, hns, Bool.true_eq_false,
    Bool.false_eq_true, if_false, if_true]
  exact ⟨_, rfl, rfl⟩

def extNoSave : Ext :=
  ⟨id, id, fun _ => Except.ok "reply text", fun _ => true, false, false⟩

def stTwo : St := ⟨[("b.js", FileEntry.readable "before")], some "b.js"⟩

/-- C2 witness: refusal evaluated on a one-file filesystem. -/
theorem overwrite_refusal_witness :
    ∃ r, handleOverwrite extNoSave stTwo = Except.ok r ∧ r.st = stTwo :=
  overwrite_refusal extNoSave stTwo "b.js" "before" "reply text" rfl rfl rfl rfl

/-- C3: invoked with no recorded analyzed file, or with a recorded path
that no longer exists, `handleOverwrite` reports a recoverable error,
performs no filesystem write, makes no remote call (no prompt is sent),
and leaves the session state unchanged. -/
theorem overwrite_missing_reference (ext : Ext) (st : St) :
    (st.lastAnalyzedFile = none →
      handleOverwrite ext st = Except.ok
        ⟨st, ["No file has been analyzed yet. Use checkfile or debug first."], []⟩) ∧
    (∀ f, st.lastAnalyzedFile = some f → jsExistsSync st.fs f = false →
      handleOverwrite ext st = Except.ok
        ⟨st, ["Previously analyzed file not found: " ++ f], []⟩) := by
  constructor
  · intro h
    simp [handleOverwrite, h]
  · intro f h hex
    simp [handleOverwrite, h, hex]

def extIdle : Ext :=
  ⟨id, id, fun _ => Except.ok "unused", fun _ => true, true, true⟩

/-- C3 witness: both missing-reference situations evaluated concretely. -/
theorem overwrite_missing_reference_witness :
    handleOverwrite extIdle ⟨[], none⟩ = Except.ok
      ⟨⟨[], none⟩, ["No file has been analyzed yet. Use checkfile or debug first."], []⟩ ∧
    handleOverwrite extIdle ⟨[], some "gone.js"⟩ = Except.ok
      ⟨⟨[], some "gone.js"⟩, ["Previously analyzed file not found: " ++ "gone.js"], []⟩ :=
  ⟨(overwrite_missing_reference extIdle ⟨[], none⟩).1 rfl,
   (overwrite_missing_reference extIdle ⟨[], some "gone.js"⟩).2 "gone.js" rfl rfl⟩

/-- C8: a checkfile invocation on a path that does not resolve to an
existing file prints a diagnostic containing the absolute path, sends no
prompt to the remote client, and leaves the session state (analyzed-file
reference included) unchanged. -/
theorem checkfile_missing (ext : Ext) (st : St) (filePath : String) (cc : Bool)
    (h : jsExistsSync st.fs (ext.resolve filePath) = false) :
    checkFile ext st filePath cc = Except.ok
      ⟨st, ["File not found: " ++ ext.resolve filePath], []⟩ ∧
    containsL ("File not found: " ++ ext.resolve filePath).data
      (ext.resolve filePath).data = true := by
  constructor
  · simp [checkFile, h]
  · rw [String.data_append]
    exact containsL_suffix _ _

def extMiss : Ext :=
  ⟨id, id, fun _ => Except.ok "unused reply", fun _ => true, false, false⟩

/-- C8 witness: `checkfile missing.txt` on an empty filesystem. -/
theorem checkfile_missing_witness :
    checkFile extMiss ⟨[], none⟩ "missing.txt" false = Except.ok
      ⟨⟨[], none⟩, ["File not found: " ++ extMiss.resolve "missing.txt"], []⟩ :=
  (checkfile_missing extMiss ⟨[], none⟩ "missing.txt" false rfl).1

def extPlain : Ext := ⟨id, id, fun _ => Except.ok "ok", fun _ => true, false, false⟩

/-- C9 counterexample: a `checkfile` on a path that exists but cannot be
read (here a directory: `existsSync` is true and `readFileSync` throws
EISDIR) escapes the handler — the session step ends in an uncaught
exception instead of continuing to the next prompt. -/
theorem step_read_error_escapes_cex :
    stepSession extPlain
      ⟨[("d", FileEntry.unreadable "EISDIR: illegal operation on a directory, read")],
        none⟩
      "checkfile d" =
      Except.error "EISDIR: illegal operation on a directory, read" := rfl

def FileEntry.isReadable : FileEntry → Bool
  | FileEntry.readable _ => true
  | FileEntry.unreadable _ => false

def allReadable (fs : FS) : Bool := fs.all (fun e => e.2.isReadable)

theorem read_ok_of_allReadable {fs : FS} {p : String} (hall : allReadable fs = true)
    (hex : jsExistsSync fs p = true) : ∃ c, jsReadFileSync fs p = Except.ok c := by
  unfold jsExistsSync at hex
  cases hf : fs.find? (fun e => e.1 == p) with
  | none => rw [hf] at hex; simp at hex
  | some e =>
      have hmem := List.mem_of_find?_eq_some hf
      have hr : e.2.isReadable = true := List.all_eq_true.mp hall e hmem
      cases e with
      | mk k v =>
          cases v with
          | readable c => exact ⟨c, by simp [jsReadFileSync, hf]⟩
          | unreadable err => simp [FileEntry.isReadable] at hr

theorem handleOverwrite_ok (ext : Ext) (st : St) (hall : allReadable st.fs = true) :
    ∃ r, handleOverwrite ext st = Except.ok r := by
  cases hlast : st.lastAnalyzedFile with
  | none => exact ⟨_, by simp [handleOverwrite, hlast]; rfl⟩
  | some f =>
      cases hex : jsExistsSync st.fs f with
      | false => exact ⟨_, by simp [handleOverwrite, hlast, hex]; rfl⟩
      | true =>
          obtain ⟨c, hc⟩ := read_ok_of_allReadable hall hex
          cases hrem : ext.remote (rewritePrompt (jsBasename f) c) with
          | error e =>
              exact ⟨_, by simp [handleOverwrite, hlast, hex, hc, hrem]; rfl⟩
          | ok reply =>
              cases hsv : ext.shouldSave with
              | false =>
                  exact ⟨_, by simp [handleOverwrite, hlast, hex, hc, hrem, hsv]; rfl⟩
              | true =>
                  cases hw1 : jsWriteFileSync ext.writeOk st.fs (f ++ ".backup") c with
                  | error e =>
                      exact ⟨_, by
                        simp [handleOverwrite, hlast, hex, hc, hrem, hsv, hw1]; rfl⟩
                  | ok fs1 =>
                      cases hw2 : jsWriteFileSync ext.writeOk fs1 f
                          (extractCodeFromResponse reply) with
                      | error e =>
                          exact ⟨_, by
                            simp [handleOverwrite, hlast, hex, hc, hrem, hsv, hw1, hw2]
                            rfl⟩
                      | ok fs2 =>
                          exact ⟨_, by
                            simp [handleOverwrite, hlast, hex, hc, hrem, hsv, hw1, hw2]
                            rfl⟩

theorem checkFile_ok (ext : Ext) (st : St) (p : String) (cc : Bool)
    (hall : allReadable st.fs = true) :
    ∃ r, checkFile ext st p cc = Except.ok r := by
  cases hex : jsExistsSync st.fs (ext.resolve p) with
  | false => exact ⟨_, by simp [checkFile, hex]; rfl⟩
  | true =>
      obtain ⟨c, hc⟩ := read_ok_of_allReadable hall hex
      cases hrem : ext.remote (analyzePrompt p c) with
      | error e => exact ⟨_, by simp [checkFile, hex, hc, hrem]; rfl⟩
      | ok reply => exact ⟨_, by simp [checkFile, hex, hc, hrem]; rfl⟩

theorem addFileContext_ok (ext : Ext) (st : St) (p : String)
    (hall : allReadable st.fs = true) :
    ∃ r, addFileContext ext st p = Except.ok r := by
  cases hex : jsExistsSync st.fs (ext.resolve p) with
  | false => exact ⟨_, by simp [addFileContext, hex]; rfl⟩
  | true =>
      obtain ⟨c, hc⟩ := read_ok_of_allReadable hall hex
      cases hrem : ext.remote (contextPrompt p c) with
      | error e => exact ⟨_, by simp [addFileContext, hex, hc, hrem]; rfl⟩
      | ok reply => exact ⟨_, by simp [addFileContext, hex, hc, hrem]; rfl⟩

/-- C9 amended: remote-call failures and missing-file conditions are
caught inside the handlers and the loop continues; but a read failure on
an existing, unreadable path escapes (see the counterexample).  When
every entry of the store is readable, a session step never ends in an
uncaught exception, and it continues unless the line is `exit`. -/
theorem step_total_when_readable (ext : Ext) (st : St) (q : String)
    (hall : allReadable st.fs = true) :
    ∃ out, stepSession ext st q = Except.ok out ∧
      (classify q ≠ Command.exit → out.2 = true) := by
  cases hc : classify q with
  | exit =>
      refine ⟨(⟨st, ["Session ended. Goodbye!"], []⟩, false), ?_, ?_⟩
      · simp [stepSession, hc]
      · intro hne; exact absurd rfl hne
  | overwrite =>
      obtain ⟨r, hr⟩ := handleOverwrite_ok ext st hall
      exact ⟨(r, true), by simp [stepSession, hc, hr, Except.map], fun _ => rfl⟩
  | checkFile p =>
      obtain ⟨r, hr⟩ := checkFile_ok ext st p false hall
      exact ⟨(r, true), by simp [stepSession, hc, hr, Except.map], fun _ => rfl⟩
  | debug p => exact absurd hc (classify_ne_debug q p)
  | addFileContext p =>
      obtain ⟨r, hr⟩ := addFileContext_ok ext st p hall
      exact ⟨(r, true), by simp [stepSession, hc, hr, Except.map], fun _ => rfl⟩
  | ask t =>
      exact ⟨(askQuestion ext st t, true), by simp [stepSession, hc], fun _ => rfl⟩

/-- C9 amended witness: a step on an all-readable store. -/
theorem step_total_when_readable_witness :
    ∃ out, stepSession extPlain ⟨[("ok.js", FileEntry.readable "x")], none⟩ "hello" =
        Except.ok out ∧
      (classify "hello" ≠ Command.exit → out.2 = true) :=
  step_total_when_readable extPlain ⟨[("ok.js", FileEntry.readable "x")], none⟩
    "hello" rfl

theorem withCC_st (cc : Bool) (r : Res) : (withCC cc r).st = r.st := by
  unfold withCC
  split <;> rfl

theorem handleOverwrite_preserves_last (ext : Ext) (st : St) (r : Res)
    (h : handleOverwrite ext st = Except.ok r) :
    r.st.lastAnalyzedFile = st.lastAnalyzedFile := by
  simp only [handleOverwrite] at h
  split at h
  · injection h with h2; subst h2; rfl
  · split at h
    · injection h with h2; subst h2; rfl
    · split at h
      · exact Except.noConfusion h
      · split at h
        · injection h with h2; subst h2; rfl
        · split at h
          · split at h
            · injection h with h2; subst h2; rfl
            · split at h
              · injection h with h2; subst h2; rfl
              · injection h with h2; subst h2; rfl
          · injection h with h2; subst h2; rfl

theorem askQuestion_st (ext : Ext) (st : St) (q : String) :
    (askQuestion ext st q).st = st := by
  simp only [askQuestion]
  split <;> rfl

theorem checkFile_last (ext : Ext) (st : St) (p : String) (cc : Bool) (r : Res)
    (h : checkFile ext st p cc = Except.ok r) :
    r.st.lastAnalyzedFile = st.lastAnalyzedFile ∨
      r.st.lastAnalyzedFile = some (ext.resolve p) := by
  simp only [checkFile] at h
  split at h
  · left; injection h with h2; subst h2; rfl
  · split at h
    · exact Except.noConfusion h
    · split at h
      · right; injection h with h2; subst h2; rfl
      · right; injection h with h2; subst h2; rfl

theorem addFileContext_last (ext : Ext) (st : St) (p : String) (r : Res)
    (h : addFileContext ext st p = Except.ok r) :
    r.st.lastAnalyzedFile = st.lastAnalyzedFile ∨
      r.st.lastAnalyzedFile = some (ext.resolve p) := by
  simp only [addFileContext] at h
  split at h
  · left; injection h with h2; subst h2; rfl
  · split at h
    · exact Except.noConfusion h
    · split at h
      · right; injection h with h2; subst h2; rfl
      · right; injection h with h2; subst h2; rfl

theorem debugFile_last (ext : Ext) (st : St) (p : String) (cc : Bool) (r : Res)
    (h : debugFile ext st p cc = Except.ok r) :
    r.st.lastAnalyzedFile = st.lastAnalyzedFile ∨
      r.st.lastAnalyzedFile = some (ext.resolve p) := by
  simp only [debugFile] at h
  split at h
  · left; injection h with h2; subst h2; rfl
  · split at h
    · exact Except.noConfusion h
    · split at h
      · right; injection h with h2; subst h2; rfl
      · right
        injection h with h2
        subst h2
        rw [withCC_st]
        split
        · split
          · rfl
          · next r2 heq =>
              rw [handleOverwrite_preserves_last ext _ r2 heq]
        · rfl

/-- C10: the analyzed-file reference is assigned right after a successful
read and before the remote call in checkfile, debug and file-context
handling — so it is updated even when the remote call then fails; the
overwrite workflow leaves it exactly as it was; and once the reference is
set, neither a session step nor the debug workflow ever resets it to
unset. -/
theorem lastAnalyzed_set_early_never_cleared :
    (∀ (ext : Ext) (st : St) (p content e : String) (cc : Bool),
      jsReadFileSync st.fs (ext.resolve p) = Except.ok content →
      ext.remote (analyzePrompt p content) = Except.error e →
      ∃ r, checkFile ext st p cc = Except.ok r ∧
        r.st.lastAnalyzedFile = some (ext.resolve p)) ∧
    (∀ (ext : Ext) (st : St) (p content e : String) (cc : Bool),
      jsReadFileSync st.fs (ext.resolve p) = Except.ok content →
      ext.remote (debugPrompt p content) = Except.error e →
      ∃ r, debugFile ext st p cc = Except.ok r ∧
        r.st.lastAnalyzedFile = some (ext.resolve p)) ∧
    (∀ (ext : Ext) (st : St) (p content e : String),
      jsReadFileSync st.fs (ext.resolve p) = Except.ok content →
      ext.remote (contextPrompt p content) = Except.error e →
      ∃ r, addFileContext ext st p = Except.ok r ∧
        r.st.lastAnalyzedFile = some (ext.resolve p)) ∧
    (∀ (ext : Ext) (st : St) (r : Res), handleOverwrite ext st = Except.ok r →
      r.st.lastAnalyzedFile = st.lastAnalyzedFile) ∧
    (∀ (ext : Ext) (st : St) (q : String) (out : Res × Bool),
      stepSession ext st q = Except.ok out →
      st.lastAnalyzedFile.isSome = true → out.1.st.lastAnalyzedFile.isSome = true) ∧
    (∀ (ext : Ext) (st : St) (p : String) (cc : Bool) (r : Res),
      debugFile ext st p cc = Except.ok r →
      st.lastAnalyzedFile.isSome = true → r.st.lastAnalyzedFile.isSome = true) := by
  refine ⟨?_, ?_, ?_, handleOverwrite_preserves_last, ?_, ?_⟩
  · intro ext st p content e cc hread hrem
    have hex := exists_of_read_ok hread
    refine ⟨⟨⟨st.fs, some (ext.resolve p)⟩,
      ["Analyzing file: " ++ ext.resolve p, "Error analyzing file: " ++ e],
      [analyzePrompt p content]⟩, ?_, rfl⟩
    simp [checkFile, hex, hread, hrem]
  · intro ext st p content e cc hread hrem
    have hex := exists_of_read_ok hread
    refine ⟨⟨⟨st.fs, some (ext.resolve p)⟩,
      ["Debugging file: " ++ ext.resolve p, "Error debugging file: " ++ e],
      [debugPrompt p content]⟩, ?_, rfl⟩
    simp [debugFile, hex, hread, hrem]
  · intro ext st p content e hread hrem
    have hex := exists_of_read_ok hread
    refine ⟨⟨⟨st.fs, some (ext.resolve p)⟩,
      ["Adding file context: " ++ ext.resolve p, "Error adding file context: " ++ e],
      [contextPrompt p content]⟩, ?_, rfl⟩
    simp [addFileContext, hex, hread, hrem]
  · intro ext st q out h hsome
    cases hc : classify q with
    | exit =>
        simp only [stepSession, hc] at h
        injection h with h2
        subst h2
        exact hsome
    | overwrite =>
        simp only [stepSession, hc] at h
        cases hov : handleOverwrite ext st with
        | error e => rw [hov] at h; exact Except.noConfusion h
        | ok r =>
            rw [hov] at h
            simp only [Except.map] at h
            injection h with h2
            subst h2
            show r.st.lastAnalyzedFile.isSome = true
            rw [handleOverwrite_preserves_last ext st r hov]
            exact hsome
    | checkFile p =>
        simp only [stepSession, hc] at h
        cases hcf : checkFile ext st p false with
        | error e => rw [hcf] at h; exact Except.noConfusion h
        | ok r =>
            rw [hcf] at h
            simp only [Except.map] at h
            injection h with h2
            subst h2
            show r.st.lastAnalyzedFile.isSome = true
            rcases checkFile_last ext st p false r hcf with h1 | h1
            · rw [h1]; exact hsome
            · rw [h1]; rfl
    | debug p => exact absurd hc (classify_ne_debug q p)
    | addFileContext p =>
        simp only [stepSession, hc] at h
        cases hcf : addFileContext ext st p with
        | error e => rw [hcf] at h; exact Except.noConfusion h
        | ok r =>
            rw [hcf] at h
            simp only [Except.map] at h
            injection h with h2
            subst h2
            show r.st.lastAnalyzedFile.isSome = true
            rcases addFileContext_last ext st p r hcf with h1 | h1
            · rw [h1]; exact hsome
            · rw [h1]; rfl
    | ask t =>
        simp only [stepSession, hc] at h
        injection h with h2
        subst h2
        show (askQuestion ext st t).st.lastAnalyzedFile.isSome = true
        rw [askQuestion_st]
        exact hsome
  · intro ext st p cc r h hsome
    rcases debugFile_last ext st p cc r h with h1 | h1
    · rw [h1]; exact hsome
    · rw [h1]; rfl

def extFail : Ext :=
  ⟨id, id, fun _ => Except.error "network down", fun _ => true, false, false⟩

def stThree : St := ⟨[("f.js", FileEntry.readable "content")], none⟩

/-- C10 witness: a checkfile whose remote call fails still records the
analyzed file. -/
theorem lastAnalyzed_set_early_never_cleared_witness :
    ∃ r, checkFile extFail stThree "f.js" false = Except.ok r ∧
      r.st.lastAnalyzedFile = some (extFail.resolve "f.js") :=
  lastAnalyzed_set_early_never_cleared.1 extFail stThree "f.js" "content"
    "network down" false rfl rfl

end SmallCliAi
